import Mathlib

/-!
SSE protocol engine: a shallow embedding of the streaming event-feed
protocol of the repository (the `SseProtocol` class of
`marathon_acme/sse_protocol.py`).  The implementation module itself is
absent from the source tree — only its test suite
(`marathon_acme/tests/test_sse_protocol.py`) and its callers are present —
so every operation below is modelled from the specification (spec.md
sections 3, 4.1 to 4.4 and 7), cross-checked against the expectations of
the test suite.  Bytes are modelled as `Char` values (the claims under
verification do not involve multi-byte UTF-8 sequences); the consumer
callback is modelled by accumulating the dispatched `(event_type, data)`
pairs in a list, in dispatch order.
-/

/-- Modelled from the spec: the transport object the protocol is attached
to (spec sections 4.4 and 2, and the `DummyTransport` test double).  The
missing implementation module is `marathon_acme/sse_protocol.py`.  The
transport optionally exposes a `loseConnection` or a `stopProducing`
termination capability and owns a boolean `disconnecting` state that the
protocol observes; a termination request sets `disconnecting`. -/
structure Transport where
  hasLoseConnection : Bool
  hasStopProducing : Bool
  disconnecting : Bool
  deriving DecidableEq

/-- Modelled from the spec: the resolution state of one completion waiter
(spec section 3, "Completion Waiter").  A waiter is resolved at most once,
either with a void success value or (in principle) with a failure; the
protocol itself never resolves a waiter with a failure. -/
inductive WaiterState where
  | pending
  | success
  | failure
  deriving DecidableEq

/-- Modelled from the spec: the whole state of one `SseProtocol` instance
(spec section 3): the raw buffer of not-yet-delimited bytes of the
in-progress line (`lineBuf`), a flag recording that the previous byte was
a bare carriage return whose line was already emitted (so that an
immediately following line feed is part of the same boundary, spec
section 4.1), the pending event (`eventType` override and accumulated
`dataLines`), the dispatched events in order (`messages`, standing for
the synchronous consumer callback), the latched completion state
(`finished`) and the registry of completion waiters (`waiters`). -/
structure SseProtocol where
  transport : Transport
  maxLength : Nat
  lineBuf : List Char
  lastCR : Bool
  eventType : Option String
  dataLines : List String
  messages : List (String × String)
  finished : Bool
  waiters : List WaiterState
  deriving DecidableEq

/-- Modelled from the spec: a freshly constructed protocol attached to a
transport, with everything in its initial empty state (spec section 3). -/
def initialProtocol (t : Transport) (m : Nat) : SseProtocol :=
  { transport := t, maxLength := m, lineBuf := [], lastCR := false,
    eventType := none, dataLines := [], messages := [], finished := false,
    waiters := [] }

/-- Modelled from the spec: requesting that the transport terminate the
connection (spec sections 4.1 and 4.4); the transport then reports itself
as disconnecting (as the `DummyTransport` test double does). -/
def loseConnection (p : SseProtocol) : SseProtocol :=
  { p with transport := { p.transport with disconnecting := true } }

/-- Modelled from the spec: strip exactly one leading space character from
a field value if one is present, preserving any further spaces verbatim
(spec section 4.2). -/
def stripOneLeadingSpace (cs : List Char) : List Char :=
  match cs with
  | [] => []
  | c :: rest => if c = ' ' then rest else c :: rest

/-- Modelled from the spec: split a line at the first colon character,
returning the parts before and after it, or `none` when the line contains
no colon (spec section 4.2). -/
def splitAtColon : List Char → Option (List Char × List Char)
  | [] => none
  | c :: cs =>
    if c = ':' then some ([], cs)
    else
      match splitAtColon cs with
      | none => none
      | some nv => some (c :: nv.1, nv.2)

/-- Modelled from the spec: the field parser for one decoded non-comment
line: with no colon the whole line is the field name and the value is
empty; otherwise the name is the part before the first colon and the
value the part after it with exactly one leading space stripped
(spec section 4.2). -/
def parseField (line : List Char) : String × String :=
  match splitAtColon line with
  | none => (String.mk line, "")
  | some nv => (String.mk nv.1, String.mk (stripOneLeadingSpace nv.2))

/-- Modelled from the spec: the ordered data lines of an event joined with
a single newline separator, not a trailing terminator (spec section 4.3). -/
def joinData : List String → String
  | [] => ""
  | [d] => d
  | d :: rest => d ++ "\n" ++ joinData rest

/-- Modelled from the spec: the event assembler acting on an event
boundary: when the pending event has no data lines, do nothing; otherwise
dispatch `(event_type or default, joined data)` to the consumer and reset
the pending event (spec section 4.3). -/
def dispatchEvent (p : SseProtocol) : SseProtocol :=
  if p.dataLines = [] then p
  else
    { p with
      messages := p.messages ++
        [(p.eventType.getD "message", joinData p.dataLines)],
      eventType := none,
      dataLines := [] }

/-- Modelled from the spec: acting on one parsed field: a `data` field
appends its value to the pending data lines, an `event` field overwrites
the pending event type, and every other field (`id`, `retry`, unknown
names) is silently discarded (spec section 4.2). -/
def handleField (p : SseProtocol) (name value : String) : SseProtocol :=
  if name = "data" then { p with dataLines := p.dataLines ++ [value] }
  else if name = "event" then { p with eventType := some value }
  else p

/-- Modelled from the spec: the field parser acting on one decoded line:
an empty line signals an event boundary, a line starting with a colon is
a comment and is ignored, and any other line is split into a field and
acted upon (spec section 4.2). -/
def lineReceived (p : SseProtocol) (line : List Char) : SseProtocol :=
  match line with
  | [] => dispatchEvent p
  | c :: _ =>
    if c = ':' then p
    else
      let nv := parseField line
      handleField p nv.1 nv.2

/-- Modelled from the spec: the line decoder consuming one byte
(spec section 4.1).  Nothing happens while the transport is
disconnecting.  A line feed directly after a bare carriage return belongs
to the same boundary and is swallowed.  A line feed or carriage return
ends the buffered line, which is handed to the field parser (a carriage
return additionally arms the `lastCR` flag).  Any other byte is appended
to the raw buffer; if the buffered undelimited bytes then exceed the
configured maximum, the protocol requests connection termination and
discards the buffer. -/
def stepChar (p : SseProtocol) (c : Char) : SseProtocol :=
  if p.transport.disconnecting = true then p
  else if p.lastCR = true ∧ c = '\n' then { p with lastCR := false }
  else if c = '\n' then
    lineReceived { p with lineBuf := [], lastCR := false } p.lineBuf
  else if c = '\r' then
    lineReceived { p with lineBuf := [], lastCR := true } p.lineBuf
  else if p.maxLength < (p.lineBuf ++ [c]).length then
    { loseConnection p with lineBuf := [], lastCR := false }
  else { p with lineBuf := p.lineBuf ++ [c], lastCR := false }

/-- Modelled from the spec: delivery of one byte chunk to the protocol
(spec section 4.1): the bytes are processed in order; no work happens for
bytes delivered while the transport is disconnecting. -/
def dataReceived (p : SseProtocol) (chunk : List Char) : SseProtocol :=
  chunk.foldl stepChar p

/-- Modelled from the spec: attaching the protocol to a transport
(spec section 4.4): attachment fails with a configuration error naming
the missing capability when the transport exposes neither a
`loseConnection` nor a `stopProducing` operation. -/
def makeConnection (p : SseProtocol) (t : Transport) :
    Except String SseProtocol :=
  if t.hasLoseConnection = true ∨ t.hasStopProducing = true then
    Except.ok { p with transport := t }
  else
    Except.error
      "Transport does not have a loseConnection or stopProducing method"

/-- Modelled from the spec: requesting a new completion waiter
(spec section 4.4): each call returns a fresh independent waiter; when
the resolved state is already latched the waiter resolves immediately.
The returned number is the index of the new waiter in the registry. -/
def whenFinished (p : SseProtocol) : SseProtocol × Nat :=
  if p.finished = true then
    ({ p with waiters := p.waiters ++ [WaiterState.success] },
      p.waiters.length)
  else
    ({ p with waiters := p.waiters ++ [WaiterState.pending] },
      p.waiters.length)

/-- Modelled from the spec: resolution of a single waiter by a
connection-lost notification: an outstanding waiter resolves with a void
success value; an already resolved waiter is not touched again
(spec section 4.4). -/
def resolveWaiter : WaiterState → WaiterState
  | WaiterState.pending => WaiterState.success
  | w => w

/-- Modelled from the spec: the connection-lost notification
(spec section 4.4): every outstanding waiter resolves exactly once with a
void success value and the resolved state is latched; with no waiters
outstanding this is a no-op and never an error. -/
def connectionLost (p : SseProtocol) : SseProtocol :=
  { p with finished := true, waiters := p.waiters.map resolveWaiter }

/-- Modelled from the spec: cancelling one completion waiter before it
resolves (spec section 4.4): the protocol reacts by invoking the
transport termination capability; the waiter itself stays registered and
resolves like every other waiter once the disconnection is observed. -/
def cancelWaiter (p : SseProtocol) (_i : Nat) : SseProtocol :=
  loseConnection p

/-- A transport exposing `loseConnection`, as the test double does. -/
def dummyTransport : Transport :=
  { hasLoseConnection := true, hasStopProducing := false,
    disconnecting := false }

/-- A fresh protocol on the dummy transport with a generous line limit. -/
def freshProtocol : SseProtocol := initialProtocol dummyTransport 16384

-- Sanity checks mirroring the test suite.
example :
    (dataReceived freshProtocol
      [ 'd', 'a', 't', 'a', ':', 'h', 'e', 'l', 'l', 'o', '\r', '\n',
        '\r', '\n' ]).messages = [("message", "hello")] := by decide

example :
    (dataReceived freshProtocol
      [ 'd', 'a', 't', 'a', ':', 'h', 'i', '\n', 'd', 'a', 't', 'a', ':',
        'y', 'o', '\r', '\r', '\n' ]).messages =
      [("message", "hi\nyo")] := by decide

example :
    (dataReceived (dataReceived (dataReceived freshProtocol
      [ 'd', 'a', 't', 'a', ':', '\r' ])
      [ 'd', 'a', 't', 'a', ':', '\n' ])
      [ 'd', 'a', 't', 'a', ':', '\r', '\n', '\r', '\n' ]).messages =
      [("message", "\n\n")] := by decide

example :
    (dataReceived (initialProtocol dummyTransport 8)
      [ 'd', 'a', 't', 'a', ':', 'x', 'x', 'x', 'x', 'x', 'x', 'x', 'x',
        'x', '\r', '\n', '\r', '\n' ]).transport.disconnecting = true := by
  decide

example :
    (dataReceived freshProtocol
      [ '\r', '\n' ]).messages = [] := by decide

/-! Basic frame and evaluation lemmas about the model. -/

theorem dataReceived_nil (p : SseProtocol) : dataReceived p [] = p := rfl

theorem dataReceived_cons (p : SseProtocol) (c : Char) (l : List Char) :
    dataReceived p (c :: l) = dataReceived (stepChar p c) l := rfl

theorem dataReceived_append (p : SseProtocol) (a b : List Char) :
    dataReceived p (a ++ b) = dataReceived (dataReceived p a) b :=
  List.foldl_append stepChar p a b

theorem stepChar_disconnecting (p : SseProtocol) (c : Char)
    (h : p.transport.disconnecting = true) : stepChar p c = p := by
  unfold stepChar
  rw [if_pos h]

theorem dataReceived_disconnecting (p : SseProtocol) (l : List Char)
    (h : p.transport.disconnecting = true) : dataReceived p l = p := by
  induction l with
  | nil => rfl
  | cons c l ih =>
    rw [dataReceived_cons, stepChar_disconnecting p c h, ih]

theorem foldl_dataReceived_disconnecting (chunks : List (List Char))
    (p : SseProtocol) (h : p.transport.disconnecting = true) :
    chunks.foldl dataReceived p = p := by
  induction chunks with
  | nil => rfl
  | cons c cs ih =>
    rw [List.foldl_cons, dataReceived_disconnecting p c h, ih]

theorem dataReceived_flatten (chunks : List (List Char)) (p : SseProtocol) :
    chunks.foldl dataReceived p = dataReceived p chunks.flatten := by
  induction chunks generalizing p with
  | nil => rfl
  | cons c cs ih =>
    rw [List.foldl_cons, List.flatten_cons, dataReceived_append, ih]

theorem dispatchEvent_transport (p : SseProtocol) :
    (dispatchEvent p).transport = p.transport := by
  unfold dispatchEvent; split <;> rfl

theorem dispatchEvent_lastCR (p : SseProtocol) :
    (dispatchEvent p).lastCR = p.lastCR := by
  unfold dispatchEvent; split <;> rfl

theorem dispatchEvent_lineBuf (p : SseProtocol) :
    (dispatchEvent p).lineBuf = p.lineBuf := by
  unfold dispatchEvent; split <;> rfl

theorem handleField_transport (p : SseProtocol) (n v : String) :
    (handleField p n v).transport = p.transport := by
  unfold handleField; split <;> [rfl; split <;> rfl]

theorem handleField_lastCR (p : SseProtocol) (n v : String) :
    (handleField p n v).lastCR = p.lastCR := by
  unfold handleField; split <;> [rfl; split <;> rfl]

theorem handleField_lineBuf (p : SseProtocol) (n v : String) :
    (handleField p n v).lineBuf = p.lineBuf := by
  unfold handleField; split <;> [rfl; split <;> rfl]

theorem lineReceived_transport (p : SseProtocol) (l : List Char) :
    (lineReceived p l).transport = p.transport := by
  cases l with
  | nil => exact dispatchEvent_transport p
  | cons c cs =>
    show (if c = ':' then p
      else handleField p (parseField (c :: cs)).1
        (parseField (c :: cs)).2).transport = p.transport
    split
    · rfl
    · exact handleField_transport p _ _

theorem lineReceived_lastCR (p : SseProtocol) (l : List Char) :
    (lineReceived p l).lastCR = p.lastCR := by
  cases l with
  | nil => exact dispatchEvent_lastCR p
  | cons c cs =>
    show (if c = ':' then p
      else handleField p (parseField (c :: cs)).1
        (parseField (c :: cs)).2).lastCR = p.lastCR
    split
    · rfl
    · exact handleField_lastCR p _ _

theorem lineReceived_lineBuf (p : SseProtocol) (l : List Char) :
    (lineReceived p l).lineBuf = p.lineBuf := by
  cases l with
  | nil => exact dispatchEvent_lineBuf p
  | cons c cs =>
    show (if c = ':' then p
      else handleField p (parseField (c :: cs)).1
        (parseField (c :: cs)).2).lineBuf = p.lineBuf
    split
    · rfl
    · exact handleField_lineBuf p _ _

/-- Erase the carriage-return lookahead flag of a protocol state; two
states that agree up to this flag are observably equal. -/
def eraseCR (p : SseProtocol) : SseProtocol := { p with lastCR := false }

theorem eraseCR_messages (p : SseProtocol) :
    (eraseCR p).messages = p.messages := rfl

theorem eraseCR_transport (p : SseProtocol) :
    (eraseCR p).transport = p.transport := rfl

theorem eraseCR_idem (p : SseProtocol) : eraseCR (eraseCR p) = eraseCR p := rfl

theorem eraseCR_of_lastCR_false (p : SseProtocol) (h : p.lastCR = false) :
    eraseCR p = p := by
  cases p
  simp only [eraseCR]
  simp_all

theorem eraseCR_dispatchEvent (p : SseProtocol) :
    eraseCR (dispatchEvent p) = dispatchEvent (eraseCR p) := by
  cases p
  unfold dispatchEvent eraseCR
  simp only
  split <;> rfl

theorem eraseCR_handleField (p : SseProtocol) (n v : String) :
    eraseCR (handleField p n v) = handleField (eraseCR p) n v := by
  cases p
  unfold handleField eraseCR
  simp only
  split <;> [rfl; split <;> rfl]

theorem eraseCR_lineReceived (p : SseProtocol) (l : List Char) :
    eraseCR (lineReceived p l) = lineReceived (eraseCR p) l := by
  cases l with
  | nil => exact eraseCR_dispatchEvent p
  | cons c cs =>
    show eraseCR (if c = ':' then p
        else handleField p (parseField (c :: cs)).1 (parseField (c :: cs)).2)
      = (if c = ':' then eraseCR p
        else handleField (eraseCR p) (parseField (c :: cs)).1
          (parseField (c :: cs)).2)
    split
    · rfl
    · exact eraseCR_handleField p _ _

/-! Evaluation lemmas for the single-byte step of the line decoder. -/

theorem stepChar_skipLF (p : SseProtocol)
    (hd : p.transport.disconnecting = false) (hcr : p.lastCR = true) :
    stepChar p '\n' = { p with lastCR := false } := by
  unfold stepChar
  rw [if_neg (by simp [hd]), if_pos ⟨hcr, rfl⟩]

theorem stepChar_lf (p : SseProtocol)
    (hd : p.transport.disconnecting = false) (hcr : p.lastCR = false) :
    stepChar p '\n' =
      lineReceived { p with lineBuf := [], lastCR := false } p.lineBuf := by
  unfold stepChar
  rw [if_neg (by simp [hd]), if_neg (by simp [hcr]), if_pos rfl]

theorem stepChar_cr (p : SseProtocol)
    (hd : p.transport.disconnecting = false) :
    stepChar p '\r' =
      lineReceived { p with lineBuf := [], lastCR := true } p.lineBuf := by
  unfold stepChar
  rw [if_neg (by simp [hd]), if_neg (by simp), if_neg (by simp), if_pos rfl]

theorem stepChar_plain (p : SseProtocol) (c : Char)
    (hd : p.transport.disconnecting = false)
    (hn : c ≠ '\n') (hr : c ≠ '\r') :
    stepChar p c =
      if p.maxLength < (p.lineBuf ++ [c]).length then
        { loseConnection p with lineBuf := [], lastCR := false }
      else { p with lineBuf := p.lineBuf ++ [c], lastCR := false } := by
  unfold stepChar
  rw [if_neg (by simp [hd]), if_neg (by simp [hn]), if_neg hn, if_neg hr]

/-! The three line-terminator conventions and unambiguous encodings of a
sequence of lines. -/

/-- One of the three line-terminator conventions of spec section 4.1. -/
inductive Eol where
  | lf
  | cr
  | crlf
  deriving DecidableEq

/-- The bytes of a line terminator. -/
def Eol.chars : Eol → List Char
  | Eol.lf => [ '\n' ]
  | Eol.cr => [ '\r' ]
  | Eol.crlf => [ '\r', '\n' ]

/-- A sequence of lines, each with its own terminator convention,
serialized to a byte stream. -/
def encodeEol : List (List Char × Eol) → List Char
  | [] => []
  | (l, t) :: rest => l ++ t.chars ++ encodeEol rest

/-- The canonical serialization terminating every line with a bare line
feed. -/
def encodeLF (ls : List (List Char)) : List Char :=
  encodeEol (ls.map (fun l => (l, Eol.lf)))

/-- Whether two adjacent terminated lines keep their own boundaries: a
bare carriage return directly followed by an empty line terminated by a
bare line feed would instead spell the two-byte sequence of a single
carriage-return-line-feed boundary. -/
def sepOK : Eol → List Char × Eol → Bool
  | Eol.cr, ([], Eol.lf) => false
  | _, _ => true

/-- An encoding choice is unambiguous when no bare-carriage-return
terminator is directly followed by an empty line terminated by a bare
line feed. -/
def unambiguous : List (List Char × Eol) → Bool
  | [] => true
  | [_] => true
  | (_, t) :: s :: rest => sepOK t s && unambiguous (s :: rest)

/-- The constraint the head of the remaining encoding must satisfy while
the carriage-return lookahead flag is armed. -/
def headOK : List (List Char × Eol) → Prop
  | [] => True
  | (l, t) :: _ => ¬(l = [] ∧ t = Eol.lf)

theorem unambiguous_cons (l : List Char) (t : Eol)
    (rest : List (List Char × Eol))
    (h : unambiguous ((l, t) :: rest) = true) :
    unambiguous rest = true ∧ (t = Eol.cr → headOK rest) := by
  cases rest with
  | nil => exact ⟨rfl, fun _ => trivial⟩
  | cons s rest =>
    rw [unambiguous, Bool.and_eq_true] at h
    refine ⟨h.2, fun ht => ?_⟩
    subst ht
    obtain ⟨l2, t2⟩ := s
    cases l2 with
    | nil =>
      cases t2 with
      | lf => simp [sepOK] at h
      | cr => simp [headOK]
      | crlf => simp [headOK]
    | cons a as => simp [headOK]

theorem eraseCR_emit (p : SseProtocol) (b : Bool) :
    eraseCR (lineReceived { p with lineBuf := [], lastCR := b } p.lineBuf)
      = lineReceived { p with lineBuf := [], lastCR := false } p.lineBuf := by
  rw [eraseCR_lineReceived]
  rfl

theorem seg_canon (t : Eol) (l : List Char) : ∀ p : SseProtocol,
    '\n' ∉ l → '\r' ∉ l →
    (p.lastCR = true →
      p.transport.disconnecting = true ∨ ¬(l = [] ∧ t = Eol.lf)) →
    eraseCR (dataReceived p (l ++ t.chars))
        = dataReceived (eraseCR p) (l ++ [ '\n' ]) ∧
    ((dataReceived p (l ++ t.chars)).lastCR = true →
      (dataReceived p (l ++ t.chars)).transport.disconnecting = true
        ∨ t = Eol.cr) := by
  induction l with
  | nil =>
    intro p _ _ hp
    by_cases hd : p.transport.disconnecting = true
    · refine ⟨?_, fun _ => Or.inl ?_⟩
      · rw [dataReceived_disconnecting p _ hd,
          dataReceived_disconnecting (eraseCR p) _ hd]
      · rw [dataReceived_disconnecting p _ hd]
        exact hd
    · have hd' : p.transport.disconnecting = false :=
        Bool.not_eq_true _ ▸ Bool.eq_false_iff.mpr hd
      cases t with
      | lf =>
        by_cases hcr : p.lastCR = true
        · rcases hp hcr with h | h
          · exact absurd h hd
          · exact absurd ⟨rfl, rfl⟩ h
        · have hcr' : p.lastCR = false :=
            Bool.not_eq_true _ ▸ Bool.eq_false_iff.mpr hcr
          have hL : dataReceived p ([] ++ Eol.lf.chars) =
              lineReceived { p with lineBuf := [], lastCR := false }
                p.lineBuf := stepChar_lf p hd' hcr'
          have hR : dataReceived (eraseCR p) ([] ++ [ '\n' ]) =
              lineReceived { p with lineBuf := [], lastCR := false }
                p.lineBuf := stepChar_lf (eraseCR p) hd' rfl
          refine ⟨?_, ?_⟩
          · rw [hL, hR]
            exact eraseCR_of_lastCR_false _ (lineReceived_lastCR _ _)
          · intro h
            rw [hL, lineReceived_lastCR] at h
            cases h
      | cr =>
        have hL : dataReceived p ([] ++ Eol.cr.chars) =
            lineReceived { p with lineBuf := [], lastCR := true }
              p.lineBuf := stepChar_cr p hd'
        have hR : dataReceived (eraseCR p) ([] ++ [ '\n' ]) =
            lineReceived { p with lineBuf := [], lastCR := false }
              p.lineBuf := stepChar_lf (eraseCR p) hd' rfl
        refine ⟨?_, fun _ => Or.inr rfl⟩
        rw [hL, hR]
        exact eraseCR_emit p true
      | crlf =>
        have e1 : stepChar p '\r' =
            lineReceived { p with lineBuf := [], lastCR := true }
              p.lineBuf := stepChar_cr p hd'
        have e1cr : (stepChar p '\r').lastCR = true := by
          rw [e1, lineReceived_lastCR]
        have e1d : (stepChar p '\r').transport.disconnecting = false := by
          rw [e1, lineReceived_transport]
          exact hd'
        have hL : dataReceived p ([] ++ Eol.crlf.chars) =
            { stepChar p '\r' with lastCR := false } :=
          stepChar_skipLF (stepChar p '\r') e1d e1cr
        have hR : dataReceived (eraseCR p) ([] ++ [ '\n' ]) =
            lineReceived { p with lineBuf := [], lastCR := false }
              p.lineBuf := stepChar_lf (eraseCR p) hd' rfl
        refine ⟨?_, ?_⟩
        · rw [hL, hR]
          have : ({ stepChar p '\r' with lastCR := false } : SseProtocol)
              = eraseCR (stepChar p '\r') := rfl
          rw [this, eraseCR_idem, e1]
          exact eraseCR_emit p true
        · intro h
          rw [hL] at h
          cases h
  | cons c ls ih =>
    intro p hn hr hp
    have hc_n : c ≠ '\n' := fun h => hn (h ▸ List.mem_cons_self c ls)
    have hc_r : c ≠ '\r' := fun h => hr (h ▸ List.mem_cons_self c ls)
    have hls_n : '\n' ∉ ls := fun h => hn (List.mem_cons_of_mem c h)
    have hls_r : '\r' ∉ ls := fun h => hr (List.mem_cons_of_mem c h)
    by_cases hd : p.transport.disconnecting = true
    · refine ⟨?_, fun _ => Or.inl ?_⟩
      · rw [dataReceived_disconnecting p _ hd,
          dataReceived_disconnecting (eraseCR p) _ hd]
      · rw [dataReceived_disconnecting p _ hd]
        exact hd
    · have hd' : p.transport.disconnecting = false :=
        Bool.not_eq_true _ ▸ Bool.eq_false_iff.mpr hd
      have hstep : stepChar (eraseCR p) c = stepChar p c := by
        rw [stepChar_plain p c hd' hc_n hc_r,
          stepChar_plain (eraseCR p) c hd' hc_n hc_r]
        rfl
      have hrcr : (stepChar p c).lastCR = false := by
        rw [stepChar_plain p c hd' hc_n hc_r]
        split <;> rfl
      have hL : dataReceived p ((c :: ls) ++ t.chars)
          = dataReceived (stepChar p c) (ls ++ t.chars) := rfl
      have hR : dataReceived (eraseCR p) ((c :: ls) ++ [ '\n' ])
          = dataReceived (stepChar p c) (ls ++ [ '\n' ]) := by
        rw [show (c :: ls) ++ [ '\n' ] = c :: (ls ++ [ '\n' ]) from rfl,
          dataReceived_cons, hstep]
      have hih := ih (stepChar p c) hls_n hls_r
        (fun h => absurd h (by rw [hrcr]; exact Bool.false_ne_true))
      refine ⟨?_, ?_⟩
      · rw [hL, hR, hih.1, eraseCR_of_lastCR_false _ hrcr]
      · rw [hL]
        exact hih.2

theorem encode_canon (segs : List (List Char × Eol)) : ∀ p : SseProtocol,
    (∀ s ∈ segs, '\n' ∉ s.1 ∧ '\r' ∉ s.1) →
    unambiguous segs = true →
    (p.lastCR = true → p.transport.disconnecting = true ∨ headOK segs) →
    eraseCR (dataReceived p (encodeEol segs))
      = dataReceived (eraseCR p) (encodeLF (segs.map Prod.fst)) := by
  induction segs with
  | nil =>
    intro p _ _ _
    rfl
  | cons s rest ih =>
    obtain ⟨l, t⟩ := s
    intro p hok hun hp
    have hok_l := hok (l, t) (List.mem_cons_self _ _)
    have hok_rest : ∀ s ∈ rest, '\n' ∉ s.1 ∧ '\r' ∉ s.1 :=
      fun s hs => hok s (List.mem_cons_of_mem _ hs)
    obtain ⟨hun_rest, hun_cr⟩ := unambiguous_cons l t rest hun
    have hseg := seg_canon t l p hok_l.1 hok_l.2
      (fun h => (hp h).imp id id)
    have hrest := ih (dataReceived p (l ++ t.chars)) hok_rest hun_rest
      (fun h => (hseg.2 h).imp id hun_cr)
    calc
      eraseCR (dataReceived p (encodeEol ((l, t) :: rest)))
          = eraseCR (dataReceived (dataReceived p (l ++ t.chars))
              (encodeEol rest)) := by
            rw [show encodeEol ((l, t) :: rest)
                = (l ++ t.chars) ++ encodeEol rest from rfl,
              dataReceived_append]
      _ = dataReceived (eraseCR (dataReceived p (l ++ t.chars)))
            (encodeLF (rest.map Prod.fst)) := hrest
      _ = dataReceived (dataReceived (eraseCR p) (l ++ [ '\n' ]))
            (encodeLF (rest.map Prod.fst)) := by rw [hseg.1]
      _ = dataReceived (eraseCR p)
            (encodeLF (((l, t) :: rest).map Prod.fst)) := by
            rw [show encodeLF (((l, t) :: rest).map Prod.fst)
                = (l ++ [ '\n' ]) ++ encodeLF (rest.map Prod.fst) from rfl]
            simp only [dataReceived_append]

/-- C1: for every sequence of lines, every choice of one of the three
line-terminator conventions per line that keeps the boundaries
unambiguous (a carriage return immediately followed by a line feed is one
boundary, not two, so a bare-carriage-return terminator may not be
directly followed by an empty line terminated by a bare line feed), and
every way of delivering the resulting byte stream in chunks, the sequence
of dispatched events is identical to that of any other such choice. -/
theorem terminator_convention_agnostic
    (tr : Transport) (m : Nat) (lines : List (List Char))
    (ts1 ts2 : List Eol) (chunks1 chunks2 : List (List Char))
    (hlen1 : ts1.length = lines.length)
    (hlen2 : ts2.length = lines.length)
    (hok : ∀ l ∈ lines, '\n' ∉ l ∧ '\r' ∉ l)
    (hu1 : unambiguous (lines.zip ts1) = true)
    (hu2 : unambiguous (lines.zip ts2) = true)
    (hc1 : chunks1.flatten = encodeEol (lines.zip ts1))
    (hc2 : chunks2.flatten = encodeEol (lines.zip ts2)) :
    (chunks1.foldl dataReceived (initialProtocol tr m)).messages
      = (chunks2.foldl dataReceived (initialProtocol tr m)).messages := by
  have key : ∀ ts : List Eol, ts.length = lines.length →
      unambiguous (lines.zip ts) = true →
      ∀ chunks : List (List Char),
        chunks.flatten = encodeEol (lines.zip ts) →
      (chunks.foldl dataReceived (initialProtocol tr m)).messages
        = (dataReceived (initialProtocol tr m) (encodeLF lines)).messages := by
    intro ts hlen hu chunks hc
    rw [dataReceived_flatten, hc]
    have hok' : ∀ s ∈ lines.zip ts, '\n' ∉ s.1 ∧ '\r' ∉ s.1 := by
      intro s hs
      obtain ⟨a, b⟩ := s
      exact hok a (List.of_mem_zip hs).1
    have h := encode_canon (lines.zip ts) (initialProtocol tr m) hok' hu
      (fun hcr => absurd hcr Bool.false_ne_true)
    rw [show eraseCR (initialProtocol tr m) = initialProtocol tr m from rfl,
      List.map_fst_zip lines ts hlen.symm.le] at h
    rw [← h, eraseCR_messages]
  rw [key ts1 hlen1 hu1 chunks1 hc1, key ts2 hlen2 hu2 chunks2 hc2]

/-- Witness for C1: the lines `data:hi` and the empty line, once
terminated by a bare carriage return and a carriage-return-line-feed pair
split across the chunk boundary, and once terminated by two bare line
feeds delivered in a single chunk, dispatch the same events. -/
theorem terminator_convention_agnostic_witness :
    ([[ 'd', 'a', 't', 'a', ':', 'h', 'i', '\r' ], [ '\r', '\n' ]].foldl
        dataReceived (initialProtocol dummyTransport 20)).messages
      = ([[ 'd', 'a', 't', 'a', ':', 'h', 'i', '\n', '\n' ]].foldl
          dataReceived (initialProtocol dummyTransport 20)).messages :=
  terminator_convention_agnostic dummyTransport 20
    [[ 'd', 'a', 't', 'a', ':', 'h', 'i' ], []]
    [Eol.cr, Eol.crlf] [Eol.lf, Eol.lf]
    [[ 'd', 'a', 't', 'a', ':', 'h', 'i', '\r' ], [ '\r', '\n' ]]
    [[ 'd', 'a', 't', 'a', ':', 'h', 'i', '\n', '\n' ]]
    (by decide) (by decide) (by decide) (by decide) (by decide)
    (by decide) (by decide)

/-! Decoded field lines and their effect on the pending event. -/

/-- The decoded line `data: v` carrying the data value `v`. -/
def dataFieldLine (v : String) : List Char :=
  'd' :: 'a' :: 't' :: 'a' :: ':' :: ' ' :: v.data

/-- The decoded line `event: v` carrying the event type `v`. -/
def eventFieldLine (v : String) : List Char :=
  'e' :: 'v' :: 'e' :: 'n' :: 't' :: ':' :: ' ' :: v.data

theorem parseField_dataLine (v : String) :
    parseField (dataFieldLine v) = ("data", v) := by
  cases v with
  | mk l => rfl

theorem parseField_eventLine (v : String) :
    parseField (eventFieldLine v) = ("event", v) := by
  cases v with
  | mk l => rfl

theorem lineReceived_data (p : SseProtocol) (v : String) :
    lineReceived p (dataFieldLine v)
      = { p with dataLines := p.dataLines ++ [v] } := by
  show (if ('d' : Char) = ':' then p
    else handleField p (parseField (dataFieldLine v)).1
      (parseField (dataFieldLine v)).2) = _
  rw [if_neg (by decide), parseField_dataLine]
  show handleField p "data" v = _
  unfold handleField
  rw [if_pos rfl]

theorem lineReceived_event (p : SseProtocol) (v : String) :
    lineReceived p (eventFieldLine v) = { p with eventType := some v } := by
  show (if ('e' : Char) = ':' then p
    else handleField p (parseField (eventFieldLine v)).1
      (parseField (eventFieldLine v)).2) = _
  rw [if_neg (by decide), parseField_eventLine]
  show handleField p "event" v = _
  unfold handleField
  rw [if_neg (by decide), if_pos rfl]

theorem lineReceived_boundary (p : SseProtocol) (h : p.dataLines ≠ []) :
    lineReceived p []
      = { p with
          messages := p.messages ++
            [(p.eventType.getD "message", joinData p.dataLines)],
          eventType := none, dataLines := [] } := by
  show dispatchEvent p = _
  unfold dispatchEvent
  rw [if_neg h]

theorem lineReceived_boundary_empty (p : SseProtocol)
    (h : p.dataLines = []) : lineReceived p [] = p := by
  show dispatchEvent p = _
  unfold dispatchEvent
  rw [if_pos h]

theorem foldl_dataFieldLines (vs : List String) : ∀ p : SseProtocol,
    (vs.map dataFieldLine).foldl lineReceived p
      = { p with dataLines := p.dataLines ++ vs } := by
  induction vs with
  | nil =>
    intro p
    cases p
    simp
  | cons v vs ih =>
    intro p
    cases p
    rw [List.map_cons, List.foldl_cons, lineReceived_data, ih]
    simp

theorem foldl_eventFieldLines (vs : List String) (v : String) :
    ∀ p : SseProtocol,
    ((vs ++ [v]).map eventFieldLine).foldl lineReceived p
      = { p with eventType := some v } := by
  induction vs with
  | nil =>
    intro p
    rw [List.nil_append, List.map_cons, List.map_nil, List.foldl_cons,
      List.foldl_nil, lineReceived_event]
  | cons w vs ih =>
    intro p
    cases p
    rw [List.cons_append, List.map_cons, List.foldl_cons,
      lineReceived_event, ih]

/-- C2: the data argument of a dispatched event is the sequence of data
field values received since the previous dispatch, in arrival order,
joined with a single newline separator and no trailing terminator; in
particular a positive number of data fields with empty values joins to
one fewer consecutive newline characters. -/
theorem data_fields_joined (p : SseProtocol) (vs : List String)
    (hvs : vs ≠ []) (hd : p.dataLines = []) :
    (lineReceived ((vs.map dataFieldLine).foldl lineReceived p) []).messages
      = p.messages ++
        [(((vs.map dataFieldLine).foldl lineReceived p).eventType.getD
            "message", joinData vs)]
    ∧ ∀ n : Nat, joinData (List.replicate (n + 1) "")
        = String.mk (List.replicate n '\n') := by
  constructor
  · have h1 : (vs.map dataFieldLine).foldl lineReceived p
        = { p with dataLines := vs } := by
      rw [foldl_dataFieldLines, hd, List.nil_append]
    rw [h1, lineReceived_boundary _ (by simpa using hvs)]
  · intro n
    induction n with
    | zero => rfl
    | succ k ihk =>
      have hstep : joinData (List.replicate (k + 1 + 1) "")
          = "" ++ "\n" ++ joinData (List.replicate (k + 1) "") := rfl
      rw [hstep, ihk]
      rfl

/-- Witness for C2: two data fields with values `a` and the empty string
dispatch one event whose data is their newline join. -/
theorem data_fields_joined_witness :
    (lineReceived (([ "a", "" ].map dataFieldLine).foldl lineReceived
        freshProtocol) []).messages
      = freshProtocol.messages ++
        [((([ "a", "" ].map dataFieldLine).foldl lineReceived
            freshProtocol).eventType.getD "message", joinData [ "a", "" ])] :=
  (data_fields_joined freshProtocol [ "a", "" ] (by decide) rfl).1

/-- C3: a dispatched event carries as event type the value of the last
`event` field received since the previous dispatch; the override is
cleared by the dispatch, so a following event assembled without an
`event` field is dispatched with the default type `message`. -/
theorem event_type_last_override (p : SseProtocol) (vs : List String)
    (v d d2 : String) (hd : p.dataLines = []) :
    (lineReceived (((vs ++ [v]).map eventFieldLine
        ++ [dataFieldLine d]).foldl lineReceived p) []).messages
      = p.messages ++ [(v, d)]
    ∧ (lineReceived (((vs ++ [v]).map eventFieldLine
        ++ [dataFieldLine d]).foldl lineReceived p) []).eventType = none
    ∧ (lineReceived (lineReceived (lineReceived (((vs ++ [v]).map
        eventFieldLine ++ [dataFieldLine d]).foldl lineReceived p) [])
        (dataFieldLine d2)) []).messages
      = p.messages ++ [(v, d), ("message", d2)] := by
  have h1 : ((vs ++ [v]).map eventFieldLine
      ++ [dataFieldLine d]).foldl lineReceived p
      = { p with eventType := some v, dataLines := [d] } := by
    rw [List.foldl_append, foldl_eventFieldLines, List.foldl_cons,
      List.foldl_nil, lineReceived_data]
    cases p
    simp_all
  rw [h1, lineReceived_boundary _ (List.cons_ne_nil d [])]
  refine ⟨rfl, rfl, ?_⟩
  rw [lineReceived_data, lineReceived_boundary _ (List.cons_ne_nil d2 [])]
  show (p.messages ++ [(v, d)]) ++ [("message", d2)]
    = p.messages ++ [(v, d), ("message", d2)]
  simp

/-- Witness for C3: the event fields `e1` then `e2` followed by one data
field dispatch an event typed `e2`. -/
theorem event_type_last_override_witness :
    (lineReceived ((([ "e1" ] ++ [ "e2" ]).map eventFieldLine
        ++ [dataFieldLine "x"]).foldl lineReceived freshProtocol)
        []).messages
      = freshProtocol.messages ++ [("e2", "x")] :=
  (event_type_last_override freshProtocol [ "e1" ] "e2" "x" "y" rfl).1

theorem splitAtColon_of_not_mem (l : List Char) (h : ':' ∉ l) :
    splitAtColon l = none := by
  induction l with
  | nil => rfl
  | cons c cs ih =>
    have hc : c ≠ ':' := fun he => h (he ▸ List.mem_cons_self c cs)
    have hcs : ':' ∉ cs := fun hm => h (List.mem_cons_of_mem c hm)
    show (if c = ':' then some ([], cs)
      else match splitAtColon cs with
        | none => none
        | some nv => some (c :: nv.1, nv.2)) = none
    rw [if_neg hc, ih hcs]

theorem splitAtColon_append (pre post : List Char) (h : ':' ∉ pre) :
    splitAtColon (pre ++ ':' :: post) = some (pre, post) := by
  induction pre with
  | nil => rfl
  | cons c cs ih =>
    have hc : c ≠ ':' := fun he => h (he ▸ List.mem_cons_self c cs)
    have hcs : ':' ∉ cs := fun hm => h (List.mem_cons_of_mem c hm)
    show (if c = ':' then some ([], cs ++ ':' :: post)
      else match splitAtColon (cs ++ ':' :: post) with
        | none => none
        | some nv => some (c :: nv.1, nv.2)) = some (c :: cs, post)
    rw [if_neg hc, ih hcs]

/-- C4: the field parser splits a line at its first colon, the name being
the part before it and the value the part after it with exactly one
leading space stripped when present and all further spaces preserved; a
line without a colon is parsed as the whole line with an empty value. -/
theorem field_split_first_colon (pre post line cs : List Char) (c : Char)
    (hpre : ':' ∉ pre) (hline : ':' ∉ line) (hc : c ≠ ' ') :
    parseField (pre ++ ':' :: post)
        = (String.mk pre, String.mk (stripOneLeadingSpace post))
    ∧ parseField line = (String.mk line, "")
    ∧ stripOneLeadingSpace (' ' :: cs) = cs
    ∧ stripOneLeadingSpace (c :: cs) = c :: cs := by
  refine ⟨?_, ?_, rfl, ?_⟩
  · unfold parseField
    rw [splitAtColon_append pre post hpre]
  · unfold parseField
    rw [splitAtColon_of_not_mem line hline]
  · show (if c = ' ' then cs else c :: cs) = c :: cs
    rw [if_neg hc]

/-- Witness for C4: the line `d:(two spaces)x` parses to the name `d` and
the value with exactly one of the leading spaces stripped. -/
theorem field_split_first_colon_witness :
    parseField ([ 'd' ] ++ ':' :: [ ' ', ' ', 'x' ])
      = (String.mk [ 'd' ],
          String.mk (stripOneLeadingSpace [ ' ', ' ', 'x' ])) :=
  (field_split_first_colon [ 'd' ] [ ' ', ' ', 'x' ] [ 'd', 'a' ] [] 'x'
    (by decide) (by decide) (by decide)).1

/-- C5: an event boundary reached while the pending event has no data
lines changes nothing at all — no dispatch happens and a pending event
type set by an earlier `event` field is retained — so the retained type
still applies to the next dispatch that does have data. -/
theorem empty_boundary_noop (p : SseProtocol) (v d : String)
    (hd : p.dataLines = []) (he : p.eventType = some v) :
    lineReceived p [] = p
    ∧ (lineReceived (lineReceived p (dataFieldLine d)) []).messages
        = p.messages ++ [(v, d)] := by
  refine ⟨lineReceived_boundary_empty p hd, ?_⟩
  have h1 : lineReceived p (dataFieldLine d) = { p with dataLines := [d] } := by
    rw [lineReceived_data, hd, List.nil_append]
  rw [h1, lineReceived_boundary _ (List.cons_ne_nil d [])]
  show p.messages ++ [(p.eventType.getD "message", joinData [d])]
    = p.messages ++ [(v, d)]
  rw [he]
  rfl

/-- Witness for C5: with a pending event type `t` and no data lines, the
boundary is a no-op and `t` still types the next dispatched event. -/
theorem empty_boundary_noop_witness :
    lineReceived { freshProtocol with eventType := some "t" } []
      = { freshProtocol with eventType := some "t" }
    ∧ (lineReceived (lineReceived { freshProtocol with
          eventType := some "t" } (dataFieldLine "x")) []).messages
        = { freshProtocol with eventType := some "t" }.messages
          ++ [("t", "x")] :=
  empty_boundary_noop { freshProtocol with eventType := some "t" } "t" "x"
    rfl rfl

theorem feed_plain_overflow (l : List Char) : ∀ p : SseProtocol,
    p.transport.disconnecting = false → l ≠ [] →
    '\n' ∉ l → '\r' ∉ l →
    p.maxLength < p.lineBuf.length + l.length →
    (dataReceived p l).transport.disconnecting = true
    ∧ (dataReceived p l).messages = p.messages := by
  induction l with
  | nil =>
    intro p _ hne _ _ _
    exact absurd rfl hne
  | cons c ls ih =>
    intro p hd hne hn hr hlong
    have hc_n : c ≠ '\n' := fun h => hn (h ▸ List.mem_cons_self c ls)
    have hc_r : c ≠ '\r' := fun h => hr (h ▸ List.mem_cons_self c ls)
    have hls_n : '\n' ∉ ls := fun h => hn (List.mem_cons_of_mem c h)
    have hls_r : '\r' ∉ ls := fun h => hr (List.mem_cons_of_mem c h)
    rw [dataReceived_cons, stepChar_plain p c hd hc_n hc_r]
    by_cases hov : p.maxLength < (p.lineBuf ++ [c]).length
    · rw [if_pos hov]
      rw [dataReceived_disconnecting _ _ rfl]
      exact ⟨rfl, rfl⟩
    · rw [if_neg hov]
      have hlb : (p.lineBuf ++ [c]).length = p.lineBuf.length + 1 := by
        simp
    -- the remaining suffix must be nonempty, else the buffer would
    -- already exceed the maximum
      have hne2 : ls ≠ [] := by
        intro h
        subst h
        rw [hlb] at hov
        simp only [List.length_cons, List.length_nil] at hlong
        omega
      refine ih { p with lineBuf := p.lineBuf ++ [c], lastCR := false }
        hd hne2 hls_n hls_r ?_
      show p.maxLength < (p.lineBuf ++ [c]).length + ls.length
      rw [hlb]
      simp only [List.length_cons] at hlong
      omega

/-- C6: whenever the buffered undelimited bytes exceed the configured
maximum line length — one over-long chunk or accumulation across chunks —
the protocol requests that the transport terminate the connection,
dispatches nothing for the current bytes, ignores the remainder of the
delivery, and performs no work for any subsequently delivered chunk. -/
theorem oversized_line_disconnects (p : SseProtocol) (l1 l2 : List Char)
    (chunks : List (List Char))
    (hd : p.transport.disconnecting = false) (hne : l1 ≠ [])
    (hn : '\n' ∉ l1) (hr : '\r' ∉ l1)
    (hlong : p.maxLength < p.lineBuf.length + l1.length) :
    (dataReceived p (l1 ++ l2)).transport.disconnecting = true
    ∧ (dataReceived p (l1 ++ l2)).messages = p.messages
    ∧ dataReceived p (l1 ++ l2) = dataReceived p l1
    ∧ chunks.foldl dataReceived (dataReceived p (l1 ++ l2))
        = dataReceived p (l1 ++ l2) := by
  obtain ⟨h1, h2⟩ := feed_plain_overflow l1 p hd hne hn hr hlong
  have h3 : dataReceived p (l1 ++ l2) = dataReceived p l1 := by
    rw [dataReceived_append, dataReceived_disconnecting _ _ h1]
  refine ⟨?_, ?_, h3, ?_⟩
  · rw [h3]
    exact h1
  · rw [h3]
    exact h2
  · rw [h3]
    exact foldl_dataReceived_disconnecting chunks _ h1

/-- Witness for C6: with a maximum line length of 8, the delivery
`data:xxxxxxxxx` followed by two boundaries requests termination and
dispatches nothing, and a later chunk is ignored. -/
theorem oversized_line_disconnects_witness :
    (dataReceived (initialProtocol dummyTransport 8)
        ([ 'd', 'a', 't', 'a', ':', 'x', 'x', 'x', 'x', 'x', 'x', 'x',
           'x', 'x' ] ++ [ '\r', '\n', '\r', '\n' ])).transport.disconnecting
        = true
    ∧ (dataReceived (initialProtocol dummyTransport 8)
        ([ 'd', 'a', 't', 'a', ':', 'x', 'x', 'x', 'x', 'x', 'x', 'x',
           'x', 'x' ] ++ [ '\r', '\n', '\r', '\n' ])).messages
        = (initialProtocol dummyTransport 8).messages
    ∧ dataReceived (initialProtocol dummyTransport 8)
        ([ 'd', 'a', 't', 'a', ':', 'x', 'x', 'x', 'x', 'x', 'x', 'x',
           'x', 'x' ] ++ [ '\r', '\n', '\r', '\n' ])
        = dataReceived (initialProtocol dummyTransport 8)
            [ 'd', 'a', 't', 'a', ':', 'x', 'x', 'x', 'x', 'x', 'x', 'x',
              'x', 'x' ]
    ∧ [[ 'd', 'a', 't', 'a', ':', 'o', 'k', '\n', '\n' ]].foldl dataReceived
        (dataReceived (initialProtocol dummyTransport 8)
          ([ 'd', 'a', 't', 'a', ':', 'x', 'x', 'x', 'x', 'x', 'x', 'x',
             'x', 'x' ] ++ [ '\r', '\n', '\r', '\n' ]))
        = dataReceived (initialProtocol dummyTransport 8)
            ([ 'd', 'a', 't', 'a', ':', 'x', 'x', 'x', 'x', 'x', 'x', 'x',
               'x', 'x' ] ++ [ '\r', '\n', '\r', '\n' ]) :=
  oversized_line_disconnects (initialProtocol dummyTransport 8)
    [ 'd', 'a', 't', 'a', ':', 'x', 'x', 'x', 'x', 'x', 'x', 'x', 'x', 'x' ]
    [ '\r', '\n', '\r', '\n' ]
    [[ 'd', 'a', 't', 'a', ':', 'o', 'k', '\n', '\n' ]]
    rfl (by decide) (by decide) (by decide) (by decide)

/-- C7: a byte chunk delivered while the transport already reports itself
as disconnecting causes no work at all: the protocol state is returned
unchanged, so no line is decoded, no field parsed and no event
dispatched. -/
theorem disconnecting_noop (p : SseProtocol) (chunk : List Char)
    (h : p.transport.disconnecting = true) :
    dataReceived p chunk = p :=
  dataReceived_disconnecting p chunk h

/-- Witness for C7: a complete event delivered to a protocol on a
disconnecting transport changes nothing. -/
theorem disconnecting_noop_witness :
    dataReceived
      { freshProtocol with
        transport := { dummyTransport with disconnecting := true } }
      [ 'd', 'a', 't', 'a', ':', 'h', 'i', '\r', '\n', '\r', '\n' ]
      = { freshProtocol with
          transport := { dummyTransport with disconnecting := true } } :=
  disconnecting_noop
    { freshProtocol with
      transport := { dummyTransport with disconnecting := true } }
    [ 'd', 'a', 't', 'a', ':', 'h', 'i', '\r', '\n', '\r', '\n' ] rfl

/-- C8: attaching the protocol to a transport fails with the
configuration error naming the missing capabilities exactly when the
transport exposes neither a close operation nor a stop-producing
operation; with at least one of the two, attachment succeeds. -/
theorem capability_check (p : SseProtocol) (t : Transport) :
    (makeConnection p t = Except.error
        "Transport does not have a loseConnection or stopProducing method"
      ↔ t.hasLoseConnection = false ∧ t.hasStopProducing = false)
    ∧ (t.hasLoseConnection = true ∨ t.hasStopProducing = true
        → makeConnection p t = Except.ok { p with transport := t }) := by
  constructor
  · constructor
    · intro h
      unfold makeConnection at h
      by_cases hl : t.hasLoseConnection = true
      · rw [if_pos (Or.inl hl)] at h
        exact absurd h (by simp)
      · by_cases hs : t.hasStopProducing = true
        · rw [if_pos (Or.inr hs)] at h
          exact absurd h (by simp)
        · exact ⟨Bool.eq_false_iff.mpr hl, Bool.eq_false_iff.mpr hs⟩
    · rintro ⟨h1, h2⟩
      unfold makeConnection
      rw [if_neg]
      simp [h1, h2]
  · intro h
    unfold makeConnection
    rw [if_pos h]

/-- Witness for C8: a transport with a close operation attaches
successfully. -/
theorem capability_check_witness :
    makeConnection freshProtocol dummyTransport
      = Except.ok { freshProtocol with transport := dummyTransport } :=
  (capability_check freshProtocol dummyTransport).2 (Or.inl rfl)

/-- C9: a connection-lost notification resolves every waiter outstanding
at that moment exactly once with a void success value and never with a
failure — already-resolved waiters are untouched, a failure can only be
observed afterwards if it was already there before — and with zero
waiters outstanding the notification only latches the resolved state and
raises no error. -/
theorem connection_lost_resolves (p : SseProtocol) :
    (connectionLost p).waiters.length = p.waiters.length
    ∧ (∀ i : Nat, p.waiters.get? i = some WaiterState.pending →
        (connectionLost p).waiters.get? i = some WaiterState.success)
    ∧ (∀ i : Nat, ∀ w : WaiterState, p.waiters.get? i = some w →
        w ≠ WaiterState.pending →
        (connectionLost p).waiters.get? i = some w)
    ∧ (∀ i : Nat, (connectionLost p).waiters.get? i
          = some WaiterState.failure →
        p.waiters.get? i = some WaiterState.failure)
    ∧ (p.waiters = [] → connectionLost p = { p with finished := true }) := by
  refine ⟨by simp [connectionLost], ?_, ?_, ?_, ?_⟩
  · intro i h
    show (p.waiters.map resolveWaiter).get? i = _
    rw [List.get?_map, h]
    rfl
  · intro i w h hw
    show (p.waiters.map resolveWaiter).get? i = _
    rw [List.get?_map, h]
    cases w with
    | pending => exact absurd rfl hw
    | success => rfl
    | failure => rfl
  · intro i h
    rw [show (connectionLost p).waiters = p.waiters.map resolveWaiter
      from rfl, List.get?_map] at h
    cases hg : p.waiters.get? i with
    | none =>
      rw [hg] at h
      cases h
    | some w =>
      rw [hg] at h
      cases w with
      | pending => simp [resolveWaiter] at h
      | success => simp [resolveWaiter] at h
      | failure => rfl
  · intro h
    cases p
    subst h
    rfl

/-- Witness for C9: a single pending waiter resolves with success on
connection loss. -/
theorem connection_lost_resolves_witness :
    (connectionLost { freshProtocol with
        waiters := [WaiterState.pending] }).waiters.get? 0
      = some WaiterState.success :=
  (connection_lost_resolves { freshProtocol with
      waiters := [WaiterState.pending] }).2.1 0 rfl

/-- C10: cancelling a freshly requested completion waiter invokes the
transport termination capability (the transport reports disconnecting)
while leaving the waiter registry untouched, and once the resulting
disconnection is observed every waiter outstanding at that moment — the
cancelled one included — resolves with a void success value, and no
waiter resolves with a failure. -/
theorem cancel_waiter_closes_and_resolves (p : SseProtocol)
    (hfin : p.finished = false)
    (hnf : ∀ k : Nat, p.waiters.get? k ≠ some WaiterState.failure) :
    (whenFinished p).1.waiters.get? (whenFinished p).2
        = some WaiterState.pending
    ∧ (cancelWaiter (whenFinished p).1
        (whenFinished p).2).transport.disconnecting = true
    ∧ (cancelWaiter (whenFinished p).1 (whenFinished p).2).waiters
        = (whenFinished p).1.waiters
    ∧ (connectionLost (cancelWaiter (whenFinished p).1
        (whenFinished p).2)).waiters.get? (whenFinished p).2
        = some WaiterState.success
    ∧ (∀ j : Nat,
        (whenFinished p).1.waiters.get? j = some WaiterState.pending →
        (connectionLost (cancelWaiter (whenFinished p).1
          (whenFinished p).2)).waiters.get? j
          = some WaiterState.success)
    ∧ (∀ j : Nat,
        (connectionLost (cancelWaiter (whenFinished p).1
          (whenFinished p).2)).waiters.get? j
          ≠ some WaiterState.failure) := by
  have hw : whenFinished p
      = ({ p with waiters := p.waiters ++ [WaiterState.pending] },
          p.waiters.length) := by
    unfold whenFinished
    rw [if_neg (by simp [hfin])]
  rw [hw]
  refine ⟨List.get?_concat_length _ _, rfl, rfl, ?_, ?_, ?_⟩
  · show ((p.waiters ++ [WaiterState.pending]).map resolveWaiter).get?
        p.waiters.length = some WaiterState.success
    rw [List.get?_map, List.get?_concat_length]
    rfl
  · intro j h
    show ((p.waiters ++ [WaiterState.pending]).map resolveWaiter).get? j
        = some WaiterState.success
    rw [List.get?_map, h]
    rfl
  · intro j h
    rw [show (connectionLost (cancelWaiter
        { p with waiters := p.waiters ++ [WaiterState.pending] }
        p.waiters.length)).waiters
      = (p.waiters ++ [WaiterState.pending]).map resolveWaiter from rfl,
      List.get?_map] at h
    cases hg : (p.waiters ++ [WaiterState.pending]).get? j with
    | none =>
      rw [hg] at h
      cases h
    | some w =>
      rw [hg] at h
      cases w with
      | pending => simp [resolveWaiter] at h
      | success => simp [resolveWaiter] at h
      | failure =>
        by_cases hj : j < p.waiters.length
        · rw [List.get?_append hj] at hg
          exact hnf j hg
        · rw [List.get?_append_right (Nat.le_of_not_lt hj)] at hg
          cases hsub : j - p.waiters.length with
          | zero =>
            rw [hsub] at hg
            exact WaiterState.noConfusion (Option.some.inj hg)
          | succ m =>
            rw [hsub] at hg
            exact Option.noConfusion hg

/-- Witness for C10: on a fresh protocol, requesting a waiter, cancelling
it, and observing the disconnection resolves that waiter with success. -/
theorem cancel_waiter_closes_and_resolves_witness :
    (connectionLost (cancelWaiter (whenFinished freshProtocol).1
        (whenFinished freshProtocol).2)).waiters.get?
        (whenFinished freshProtocol).2
      = some WaiterState.success :=
  (cancel_waiter_closes_and_resolves freshProtocol rfl
    (by intro k; simp [freshProtocol, initialProtocol])).2.2.2.1
